import Mathlib

/-!
Shallow embedding of the sprite pipeline repository, consisting of two
scripts: `getsprites.py` (the Extractor) and `resizesprites.py` (the
Normalizer).  Images are modelled as a width, a height and a total pixel
function; machine integers of the scripts are modelled as `Nat` (all pixel
values and dimensions in the scripts are non-negative and no overflow can
occur at image sizes).  Library calls (`cv2.threshold`, `cv2.boundingRect`,
`PIL.Image.crop`, `PIL.Image.resize`, `PIL.Image.paste`) are embedded with
their documented integer semantics.  `cv2.findContours` itself is not
re-implemented; the definitions that need contours take the contour list
as a parameter, and the theorems that depend on the library's behaviour
assume only its contract (every returned contour is a non-empty list of
on-pixels of the mask).
-/

set_option autoImplicit false

namespace SpritePipeline

/-- An RGBA pixel; channel values are bytes 0..255 in the scripts. -/
structure RGBA where
  r : Nat
  g : Nat
  b : Nat
  a : Nat
  deriving DecidableEq

/-- A raster image: width, height and a total pixel function
(pixels outside the width/height rectangle are irrelevant). -/
structure Image where
  width : Nat
  height : Nat
  pix : Nat → Nat → RGBA

/-- A contour as returned by `cv2.findContours`: a list of (x, y) points. -/
abbrev Contour := List (Nat × Nat)

/-- A bounding rectangle as returned by `cv2.boundingRect`. -/
structure Rect where
  x : Nat
  y : Nat
  w : Nat
  h : Nat
  deriving DecidableEq

/-- `cv2.boundingRect` on an integer point set: the minimal axis-aligned
rectangle containing all points, with inclusive extents
(`w = maxX - minX + 1`, `h = maxY - minY + 1`).  `cv2.findContours` never
returns an empty contour; the `[]` case is an arbitrary total default. -/
def boundingRect : Contour → Rect
  | [] => ⟨0, 0, 0, 0⟩
  | p :: ps =>
      ⟨ps.foldl (fun m q => min m q.1) p.1,
       ps.foldl (fun m q => min m q.2) p.2,
       ps.foldl (fun m q => max m q.1) p.1 - ps.foldl (fun m q => min m q.1) p.1 + 1,
       ps.foldl (fun m q => max m q.2) p.2 - ps.foldl (fun m q => min m q.2) p.2 + 1⟩

/-- `pil_image.crop((x, y, x + w, y + h))` from `getsprites.py` line 36:
the result always has size `(w, h)`; any part of the box outside the
source image is filled with zero (fully transparent) pixels. -/
def crop (img : Image) (x y w h : Nat) : Image :=
  ⟨w, h, fun u v =>
    if x + u < img.width ∧ y + v < img.height then img.pix (x + u) (y + v)
    else ⟨0, 0, 0, 0⟩⟩

/-- Zero-padding to width two, as Python `f"{i:02d}"` does for `i ≥ 0`. -/
def pad2 (i : Nat) : String :=
  if i < 10 then "0" ++ toString i else toString i

/-- The output file name `f"sprite_{i:02d}.png"` of `getsprites.py` line 37. -/
def spriteName (i : Nat) : String :=
  "sprite_" ++ pad2 i ++ ".png"

/-- The extraction loop of `getsprites.py` lines 31..37
(`for i, cnt in enumerate(contours)`), carrying the running index `i`:
boxes with `w < 10 or h < 10` are skipped (the index still advances),
every other box is cropped and saved under `spriteName i`. -/
def extractFrom (img : Image) : Nat → List Contour → List (Nat × String × Image)
  | _, [] => []
  | i, c :: rest =>
      if (boundingRect c).w < 10 ∨ (boundingRect c).h < 10 then
        extractFrom img (i + 1) rest
      else
        (i, spriteName i,
          crop img (boundingRect c).x (boundingRect c).y (boundingRect c).w (boundingRect c).h)
          :: extractFrom img (i + 1) rest

/-- The files written by the Extractor for a given contour list:
each entry is (enumeration index, file name, saved image). -/
def extractSprites (img : Image) (contours : List Contour) : List (Nat × String × Image) :=
  extractFrom img 0 contours

/-- The sheet as loaded by `cv2.imread(path, IMREAD_UNCHANGED)`:
its pixels and whether a 4th (alpha) channel is present
(`image.shape[2] == 4`, `getsprites.py` line 16). -/
structure Sheet where
  img : Image
  hasAlpha : Bool

/-- `cv2.cvtColor(image, COLOR_BGR2GRAY)`: OpenCV's fixed-point BT.601 luma,
`(R*4899 + G*9617 + B*1868 + 2^13) >> 14`. -/
def cvGray (r g b : Nat) : Nat :=
  (4899 * r + 9617 * g + 1868 * b + 8192) / 16384

/-- The raw mask value of a pixel, `getsprites.py` lines 16..19: the alpha
channel when present, otherwise the grayscale conversion of the colors. -/
def rawMask (s : Sheet) (x y : Nat) : Nat :=
  if s.hasAlpha then (s.img.pix x y).a
  else cvGray (s.img.pix x y).r (s.img.pix x y).g (s.img.pix x y).b

/-- One pixel of `cv2.threshold(alpha, 1, 255, cv2.THRESH_BINARY)`
(`getsprites.py` line 22): `dst = 255 if src > 1 else 0`. -/
def threshBin (v : Nat) : Nat :=
  if 1 < v then 255 else 0

/-- The binary visibility mask `thresh` of `getsprites.py` line 22. -/
def binMask (s : Sheet) (x y : Nat) : Nat :=
  threshBin (rawMask s x y)

/-- Observable outcome of one run of `getsprites.py`. -/
structure ExtractorRun where
  dirEnsured : Bool
  aborted : Bool
  written : List (Nat × String × Image)
  summary : Option Nat

/-- One run of `getsprites.py`, parameterised by the contour finder
(`cv2.findContours` applied to the binary mask) and by the result of
loading the input file: `cv2.imread` returns `None` when the path is
missing or not decodable, after which `image.shape` raises an uncaught
`AttributeError` and the process aborts; `os.makedirs(output_dir,
exist_ok=True)` has already run at that point.  On a successful load the
loop writes the extracted sprites and the script prints
`len(contours)` as its summary. -/
def runExtractor (findContours : (Nat → Nat → Nat) → List Contour) :
    Option Sheet → ExtractorRun
  | none =>
      { dirEnsured := true, aborted := true, written := [], summary := none }
  | some s =>
      { dirEnsured := true, aborted := false,
        written := extractSprites s.img (findContours (binMask s)),
        summary := some (findContours (binMask s)).length }

/-- `next_multiple(n, base=32)` from `resizesprites.py` lines 10..11:
`base * math.ceil(n / base)`, with the ceiling division carried out
exactly in `Nat`. -/
def next_multiple (n : Nat) (base : Nat := 32) : Nat :=
  base * ((n + base - 1) / base)

/-- `sprite.resize(new_size, resample=Image.NEAREST)`: PIL nearest-neighbor
resampling; output pixel (i, j) copies the source pixel at
`(floor((i + 0.5) * srcW / dstW), floor((j + 0.5) * srcH / dstH))`,
written with integer arithmetic as `(2*i + 1) * srcW / (2 * dstW)`. -/
def resizeNearest (src : Image) (dstW dstH : Nat) : Image :=
  ⟨dstW, dstH, fun i j =>
    src.pix ((2 * i + 1) * src.width / (2 * dstW)) ((2 * j + 1) * src.height / (2 * dstH))⟩

/-- `Image.new("RGBA", (w, h), c)`: a constant-colored canvas. -/
def imageNew (w h : Nat) (c : RGBA) : Image :=
  ⟨w, h, fun _ _ => c⟩

/-- Pillow's `MULDIV255(a, b)` byte blend primitive:
`tmp = a*b + 128; ((tmp >> 8) + tmp) >> 8`, an exact `round(a*b/255)`
for bytes. -/
def mulDiv255 (a b : Nat) : Nat :=
  ((a * b + 128) / 256 + (a * b + 128)) / 256

/-- One channel of Pillow's masked paste:
`BLEND(mask, dst, src) = MULDIV255(dst, 255 - mask) + MULDIV255(src, mask)`. -/
def blendChannel (m d s : Nat) : Nat :=
  mulDiv255 d (255 - m) + mulDiv255 s m

/-- One pixel of `canvas.paste(resized, (ox, oy), resized)`: the pasted
image's own alpha is the blend mask, applied to all four channels. -/
def blendPixel (d s : RGBA) : RGBA :=
  ⟨blendChannel s.a d.r s.r, blendChannel s.a d.g s.g,
   blendChannel s.a d.b s.b, blendChannel s.a d.a s.a⟩

/-- `canvas.paste(src, (ox, oy), src)` from `resizesprites.py` line 37:
inside the pasted rectangle the pixels are alpha-blended, outside it the
canvas is unchanged. -/
def paste (canvas src : Image) (ox oy : Nat) : Image :=
  ⟨canvas.width, canvas.height, fun q r =>
    if ox ≤ q ∧ q < ox + src.width ∧ oy ≤ r ∧ r < oy + src.height then
      blendPixel (canvas.pix q r) (src.pix (q - ox) (r - oy))
    else canvas.pix q r⟩

/-- All intermediate quantities of one iteration of the Normalizer loop. -/
structure NormResult where
  resized : Image
  canvasW : Nat
  canvasH : Nat
  offsetX : Nat
  offsetY : Nat
  output : Image

/-- The body of the Normalizer loop, `resizesprites.py` lines 19..40:
quarter-scale nearest resize (dimensions clamped to at least 1), canvas
padded to the next multiple of 32, sprite pasted at the centered offset. -/
def normalizeFile (sprite : Image) : NormResult :=
  let newW := max 1 (sprite.width / 4)
  let newH := max 1 (sprite.height / 4)
  let resized := resizeNearest sprite newW newH
  let canvasW := next_multiple resized.width
  let canvasH := next_multiple resized.height
  let canvas := imageNew canvasW canvasH ⟨0, 0, 0, 0⟩
  let offsetX := (canvasW - resized.width) / 2
  let offsetY := (canvasH - resized.height) / 2
  { resized := resized, canvasW := canvasW, canvasH := canvasH,
    offsetX := offsetX, offsetY := offsetY,
    output := paste canvas resized offsetX offsetY }

/-- The Normalizer's pass over the input directory listing
(`resizesprites.py` lines 14..40): files not ending in `.png` are
skipped, every other file produces its normalized output under the same
name.  The list order is the (implementation-defined) `os.listdir`
order. -/
def processDirectory (files : List (String × Image)) : List (String × Image) :=
  files.filterMap fun f =>
    if f.1.endsWith ".png" then some (f.1, (normalizeFile f.2).output) else none

/-- Writing output files into a directory state, in loop order: each
`save` overwrites any previous file of the same name. -/
def writeOutputs : (String → Option Image) → List (String × Image) → (String → Option Image)
  | st, [] => st
  | st, f :: rest => writeOutputs (fun q => if q = f.1 then some f.2 else st q) rest

/-- One run of `resizesprites.py` over a fixed input listing, as a
transformation of the output-directory state. -/
def runNormalizer (inputs : List (String × Image)) (st : String → Option Image) :
    String → Option Image :=
  writeOutputs st (processDirectory inputs)

/-- The last write to a given name performed by a list of saves. -/
def lastWrite : List (String × Image) → String → Option Image
  | [], _ => none
  | f :: rest, q =>
      match lastWrite rest q with
      | some v => some v
      | none => if q = f.1 then some f.2 else none

/-! Concrete inputs used to instantiate the theorems. -/

/-- A 12×12 fully opaque sheet. -/
def imgOpaque12 : Image :=
  ⟨12, 12, fun _ _ => ⟨7, 7, 7, 255⟩⟩

/-- A contour spanning a 12×12 box (accepted by the size filter). -/
def cnt12 : Contour :=
  [(0, 0), (11, 11)]

/-- A contour spanning a 5×5 box (rejected by the size filter). -/
def cntSmall : Contour :=
  [(0, 0), (4, 4)]

/-- A 1×1 RGBA sheet whose single pixel has alpha exactly 1. -/
def sheetAlphaOne : Sheet :=
  ⟨⟨1, 1, fun _ _ => ⟨0, 0, 0, 1⟩⟩, true⟩

/-- A 2×2 RGBA sheet with every pixel fully transparent. -/
def sheetBlank : Sheet :=
  ⟨⟨2, 2, fun _ _ => ⟨0, 0, 0, 0⟩⟩, true⟩

/-- The contour finder's result on a blank mask: no contours. -/
def noContours : (Nat → Nat → Nat) → List Contour :=
  fun _ => []

/-- A 64×64 opaque sprite (the spec's worked scenario input). -/
def img64 : Image :=
  ⟨64, 64, fun _ _ => ⟨1, 2, 3, 255⟩⟩

/-- A one-file input directory listing. -/
def inputs1 : List (String × Image) :=
  [("sprite_00.png", img64)]

/-- An empty output-directory state. -/
def emptyStore : String → Option Image :=
  fun _ => none

/-! Helper lemmas. -/

theorem foldl_min_le (f : Nat × Nat → Nat) :
    ∀ (ps : List (Nat × Nat)) (a : Nat), ps.foldl (fun m q => min m (f q)) a ≤ a := by
  intro ps
  induction ps with
  | nil => intro a; exact Nat.le_refl a
  | cons p ps ih =>
      intro a
      exact Nat.le_trans (ih (min a (f p))) (Nat.min_le_left _ _)

theorem foldl_le_max (f : Nat × Nat → Nat) :
    ∀ (ps : List (Nat × Nat)) (a : Nat), a ≤ ps.foldl (fun m q => max m (f q)) a := by
  intro ps
  induction ps with
  | nil => intro a; exact Nat.le_refl a
  | cons p ps ih =>
      intro a
      exact Nat.le_trans (Nat.le_max_left _ _) (ih (max a (f p)))

theorem foldl_max_lt (f : Nat × Nat → Nat) (bound : Nat) :
    ∀ (ps : List (Nat × Nat)) (a : Nat), a < bound → (∀ p ∈ ps, f p < bound) →
      ps.foldl (fun m q => max m (f q)) a < bound := by
  intro ps
  induction ps with
  | nil => intro a ha _; exact ha
  | cons p ps ih =>
      intro a ha hps
      refine ih (max a (f p)) ?_ (fun q hq => hps q (List.mem_cons_of_mem p hq))
      exact Nat.max_lt.mpr ⟨ha, hps p (List.mem_cons_self p ps)⟩

/-- A non-empty contour whose points all lie inside a W×H image has its
bounding rectangle inside the image. -/
theorem boundingRect_in_bounds (cnt : Contour) (W H : Nat) (hne : cnt ≠ [])
    (hin : ∀ p ∈ cnt, p.1 < W ∧ p.2 < H) :
    (boundingRect cnt).x + (boundingRect cnt).w ≤ W ∧
    (boundingRect cnt).y + (boundingRect cnt).h ≤ H := by
  cases cnt with
  | nil => exact absurd rfl hne
  | cons p ps =>
      have hminx : ps.foldl (fun m q => min m q.1) p.1 ≤ p.1 :=
        foldl_min_le (fun q => q.1) ps p.1
      have hminy : ps.foldl (fun m q => min m q.2) p.2 ≤ p.2 :=
        foldl_min_le (fun q => q.2) ps p.2
      have hmaxx : ps.foldl (fun m q => max m q.1) p.1 < W :=
        foldl_max_lt (fun q => q.1) W ps p.1 (hin p (List.mem_cons_self p ps)).1
          (fun q hq => (hin q (List.mem_cons_of_mem p hq)).1)
      have hmaxy : ps.foldl (fun m q => max m q.2) p.2 < H :=
        foldl_max_lt (fun q => q.2) H ps p.2 (hin p (List.mem_cons_self p ps)).2
          (fun q hq => (hin q (List.mem_cons_of_mem p hq)).2)
      have hx : p.1 ≤ ps.foldl (fun m q => max m q.1) p.1 :=
        foldl_le_max (fun q => q.1) ps p.1
      have hy : p.2 ≤ ps.foldl (fun m q => max m q.2) p.2 :=
        foldl_le_max (fun q => q.2) ps p.2
      simp only [boundingRect]
      omega

/-- Every position of the contour list with an accepted bounding box
contributes its cropped sprite, under the original enumeration index. -/
theorem mem_extractFrom (img : Image) :
    ∀ (l : List Contour) (k i : Nat) (cnt : Contour), l[i]? = some cnt →
      ¬((boundingRect cnt).w < 10 ∨ (boundingRect cnt).h < 10) →
      (k + i, spriteName (k + i),
        crop img (boundingRect cnt).x (boundingRect cnt).y
          (boundingRect cnt).w (boundingRect cnt).h) ∈ extractFrom img k l := by
  intro l
  induction l with
  | nil => intro k i cnt h _; simp at h
  | cons c rest ih =>
      intro k i cnt hget hbig
      cases i with
      | zero =>
          have hc : c = cnt := by simpa using hget
          subst hc
          simp only [extractFrom]
          rw [if_neg hbig]
          exact List.mem_cons_self _ _
      | succ i =>
          have hmem := ih (k + 1) i cnt (by simpa using hget) hbig
          have hk : k + (i + 1) = (k + 1) + i := by omega
          simp only [extractFrom]
          rw [hk]
          split
          · exact hmem
          · exact List.mem_cons_of_mem _ hmem

/-- Conversely, every entry of the extraction output comes from a
position of the contour list with an accepted bounding box, is named
after that position, and is the crop at that box. -/
theorem extractFrom_shape (img : Image) :
    ∀ (l : List Contour) (k : Nat) (e : Nat × String × Image), e ∈ extractFrom img k l →
      ∃ i cnt, l[i]? = some cnt ∧ e.1 = k + i ∧
        ¬((boundingRect cnt).w < 10 ∨ (boundingRect cnt).h < 10) ∧
        e.2.1 = spriteName e.1 ∧
        e.2.2 = crop img (boundingRect cnt).x (boundingRect cnt).y
          (boundingRect cnt).w (boundingRect cnt).h := by
  intro l
  induction l with
  | nil => intro k e h; simp [extractFrom] at h
  | cons c rest ih =>
      intro k e h
      simp only [extractFrom] at h
      by_cases hb : (boundingRect c).w < 10 ∨ (boundingRect c).h < 10
      · rw [if_pos hb] at h
        obtain ⟨i, cnt, h1, h2, h3, h4, h5⟩ := ih (k + 1) e h
        exact ⟨i + 1, cnt, by simpa using h1, by omega, h3, h4, h5⟩
      · rw [if_neg hb] at h
        rcases List.mem_cons.mp h with he | hmem
        · subst he
          exact ⟨0, c, by simp, rfl, hb, rfl, rfl⟩
        · obtain ⟨i, cnt, h1, h2, h3, h4, h5⟩ := ih (k + 1) e hmem
          exact ⟨i + 1, cnt, by simpa using h1, by omega, h3, h4, h5⟩

theorem next_multiple_dvd (n : Nat) : 32 ∣ next_multiple n :=
  ⟨(n + 32 - 1) / 32, rfl⟩

theorem next_multiple_le (n : Nat) : n ≤ next_multiple n := by
  simp only [next_multiple]
  omega

theorem next_multiple_lt_add (n : Nat) : next_multiple n < n + 32 := by
  simp only [next_multiple]
  omega

theorem next_multiple_min (n m : Nat) (hd : 32 ∣ m) (hle : n ≤ m) :
    next_multiple n ≤ m := by
  obtain ⟨t, rfl⟩ := hd
  simp only [next_multiple]
  omega

theorem next_multiple_fixed (n : Nat) (hd : 32 ∣ n) : next_multiple n = n := by
  obtain ⟨t, rfl⟩ := hd
  simp only [next_multiple]
  omega

theorem next_multiple_ge_32 (n : Nat) (h : 1 ≤ n) : 32 ≤ next_multiple n := by
  simp only [next_multiple]
  omega

theorem normalizeFile_resized_width (img : Image) :
    (normalizeFile img).resized.width = max 1 (img.width / 4) := rfl

theorem normalizeFile_resized_height (img : Image) :
    (normalizeFile img).resized.height = max 1 (img.height / 4) := rfl

theorem normalizeFile_canvasW (img : Image) :
    (normalizeFile img).canvasW = next_multiple (max 1 (img.width / 4)) := rfl

theorem normalizeFile_canvasH (img : Image) :
    (normalizeFile img).canvasH = next_multiple (max 1 (img.height / 4)) := rfl

theorem normalizeFile_offsetX (img : Image) :
    (normalizeFile img).offsetX =
      (next_multiple (max 1 (img.width / 4)) - max 1 (img.width / 4)) / 2 := rfl

theorem normalizeFile_offsetY (img : Image) :
    (normalizeFile img).offsetY =
      (next_multiple (max 1 (img.height / 4)) - max 1 (img.height / 4)) / 2 := rfl

/-- Applying a written-out directory state: the last save to a name wins,
anything never saved falls back to the previous state. -/
theorem writeOutputs_apply :
    ∀ (l : List (String × Image)) (st : String → Option Image) (q : String),
      writeOutputs st l q =
        match lastWrite l q with
        | some v => some v
        | none => st q := by
  intro l
  induction l with
  | nil => intro st q; rfl
  | cons f rest ih =>
      intro st q
      simp only [writeOutputs, lastWrite]
      rw [ih]
      cases h : lastWrite rest q with
      | some v => rfl
      | none =>
          by_cases hq : q = f.1
          · simp [hq]
          · simp [hq]

/-! Claim theorems. -/

/-- Claim C1, counterexample: the claim says a mask pixel is marked
visible (255) iff its value is greater than 0, but on a sheet whose
pixel has alpha exactly 1 the binarized mask is 0, not 255: the
threshold of `getsprites.py` line 22 is strict at 1, not at 0. -/
theorem thresh_claim_false_at_alpha_one :
    ¬(binMask sheetAlphaOne 0 0 = 255 ↔ 0 < rawMask sheetAlphaOne 0 0) := by
  decide

/-- Claim C1 (amended): in the Extractor's visibility mask, a pixel of
the alpha channel (or grayscale fallback) is marked visible (255) if and
only if its value is greater than 1 (equivalently, ≥ 2); all other
pixels are 0. -/
theorem thresh_visible_iff_gt_one (s : Sheet) (x y : Nat) :
    (binMask s x y = 255 ↔ 1 < rawMask s x y) ∧
    (rawMask s x y ≤ 1 → binMask s x y = 0) := by
  by_cases h : 1 < rawMask s x y <;> simp [binMask, threshBin, h]

/-- Claim C1, witness: the amended claim evaluated on the concrete
alpha-1 sheet. -/
theorem thresh_visible_iff_gt_one_witness :
    (binMask sheetAlphaOne 0 0 = 255 ↔ 1 < rawMask sheetAlphaOne 0 0) ∧
    (rawMask sheetAlphaOne 0 0 ≤ 1 → binMask sheetAlphaOne 0 0 = 0) :=
  thresh_visible_iff_gt_one sheetAlphaOne 0 0

/-- Claim C2: for every contour of the list whose bounding box has
width ≥ 10 and height ≥ 10 (the contour being non-empty and inside the
image, as `cv2.findContours` guarantees), the Extractor writes an output
file, named after the contour's position, whose pixel dimensions equal
exactly (w, h) and whose pixels (including alpha) equal the crop of the
source sheet at the bounding box. -/
theorem extract_accepts_big_boxes (img : Image) (contours : List Contour)
    (i : Nat) (cnt : Contour) (hget : contours[i]? = some cnt) (hne : cnt ≠ [])
    (hin : ∀ p ∈ cnt, p.1 < img.width ∧ p.2 < img.height)
    (hw : 10 ≤ (boundingRect cnt).w) (hh : 10 ≤ (boundingRect cnt).h) :
    (i, spriteName i,
      crop img (boundingRect cnt).x (boundingRect cnt).y
        (boundingRect cnt).w (boundingRect cnt).h) ∈ extractSprites img contours ∧
    (crop img (boundingRect cnt).x (boundingRect cnt).y
      (boundingRect cnt).w (boundingRect cnt).h).width = (boundingRect cnt).w ∧
    (crop img (boundingRect cnt).x (boundingRect cnt).y
      (boundingRect cnt).w (boundingRect cnt).h).height = (boundingRect cnt).h ∧
    ∀ u v, u < (boundingRect cnt).w → v < (boundingRect cnt).h →
      (crop img (boundingRect cnt).x (boundingRect cnt).y
        (boundingRect cnt).w (boundingRect cnt).h).pix u v =
        img.pix ((boundingRect cnt).x + u) ((boundingRect cnt).y + v) := by
  have hbig : ¬((boundingRect cnt).w < 10 ∨ (boundingRect cnt).h < 10) := by omega
  have hmem := mem_extractFrom img contours 0 i cnt hget hbig
  obtain ⟨hbw, hbh⟩ := boundingRect_in_bounds cnt img.width img.height hne hin
  refine ⟨by simpa [extractSprites] using hmem, rfl, rfl, ?_⟩
  intro u v hu hv
  have hc1 : (boundingRect cnt).x + u < img.width := by omega
  have hc2 : (boundingRect cnt).y + v < img.height := by omega
  simp only [crop]
  rw [if_pos ⟨hc1, hc2⟩]

/-- Claim C2, witness: the 12×12 contour on the opaque 12×12 sheet is
accepted and its crop is written as sprite number 0. -/
theorem extract_accepts_big_boxes_witness :
    ([cnt12] : List Contour)[0]? = some cnt12 ∧ cnt12 ≠ [] ∧
    (∀ p ∈ cnt12, p.1 < imgOpaque12.width ∧ p.2 < imgOpaque12.height) ∧
    10 ≤ (boundingRect cnt12).w ∧ 10 ≤ (boundingRect cnt12).h ∧
    ((0, spriteName 0,
      crop imgOpaque12 (boundingRect cnt12).x (boundingRect cnt12).y
        (boundingRect cnt12).w (boundingRect cnt12).h) ∈ extractSprites imgOpaque12 [cnt12] ∧
     (crop imgOpaque12 (boundingRect cnt12).x (boundingRect cnt12).y
       (boundingRect cnt12).w (boundingRect cnt12).h).width = (boundingRect cnt12).w ∧
     (crop imgOpaque12 (boundingRect cnt12).x (boundingRect cnt12).y
       (boundingRect cnt12).w (boundingRect cnt12).h).height = (boundingRect cnt12).h ∧
     ∀ u v, u < (boundingRect cnt12).w → v < (boundingRect cnt12).h →
       (crop imgOpaque12 (boundingRect cnt12).x (boundingRect cnt12).y
         (boundingRect cnt12).w (boundingRect cnt12).h).pix u v =
         imgOpaque12.pix ((boundingRect cnt12).x + u) ((boundingRect cnt12).y + v)) :=
  ⟨by decide, by decide, by decide, by decide, by decide,
   extract_accepts_big_boxes imgOpaque12 [cnt12] 0 cnt12 (by decide) (by decide)
     (by decide) (by decide) (by decide)⟩

/-- Claim C3: a contour whose bounding box has width < 10 or height < 10
produces no output entry at its index, yet the naming index advances
past it: every output entry that is written is named
`sprite_{i:02d}.png` with `i` its position in the original contour list. -/
theorem extract_skips_small_boxes (img : Image) (contours : List Contour)
    (i : Nat) (cnt : Contour) (hget : contours[i]? = some cnt)
    (hsmall : (boundingRect cnt).w < 10 ∨ (boundingRect cnt).h < 10) :
    (∀ s m, (i, s, m) ∉ extractSprites img contours) ∧
    (∀ e ∈ extractSprites img contours, e.2.1 = spriteName e.1) := by
  constructor
  · intro s m hmem
    obtain ⟨j, cnt2, h1, h2, h3, _, _⟩ := extractFrom_shape img contours 0 (i, s, m) hmem
    have hij : i = j := by simpa using h2
    subst hij
    rw [hget] at h1
    have hc : cnt = cnt2 := by injection h1
    subst hc
    exact h3 hsmall
  · intro e he
    obtain ⟨_, _, _, _, _, h4, _⟩ := extractFrom_shape img contours 0 e he
    exact h4

/-- Claim C3, witness: the 5×5 contour is skipped: no sprite number 0 is
written, and output naming follows the original index. -/
theorem extract_skips_small_boxes_witness :
    ([cntSmall] : List Contour)[0]? = some cntSmall ∧
    ((boundingRect cntSmall).w < 10 ∨ (boundingRect cntSmall).h < 10) ∧
    ((∀ s m, (0, s, m) ∉ extractSprites imgOpaque12 [cntSmall]) ∧
     (∀ e ∈ extractSprites imgOpaque12 [cntSmall], e.2.1 = spriteName e.1)) :=
  ⟨by decide, by decide,
   extract_skips_small_boxes imgOpaque12 [cntSmall] 0 cntSmall (by decide) (by decide)⟩

/-- Claim C4: the Normalizer's resized dimensions are exactly
(max(1, floor(w/4)), max(1, floor(h/4))), and neither is ever zero. -/
theorem resize_dims_quarter_pos (img : Image) :
    (normalizeFile img).resized.width = max 1 (img.width / 4) ∧
    (normalizeFile img).resized.height = max 1 (img.height / 4) ∧
    0 < (normalizeFile img).resized.width ∧
    0 < (normalizeFile img).resized.height := by
  refine ⟨rfl, rfl, ?_, ?_⟩
  · rw [normalizeFile_resized_width]
    omega
  · rw [normalizeFile_resized_height]
    omega

/-- Claim C5: each canvas dimension is the smallest multiple of 32 that
is at least the corresponding resized dimension: it is divisible by 32,
at least the resized dimension, minimal among such multiples, and a
resized dimension already divisible by 32 is left unchanged. -/
theorem canvas_least_multiple_of_32 (img : Image) :
    32 ∣ (normalizeFile img).canvasW ∧ 32 ∣ (normalizeFile img).canvasH ∧
    (normalizeFile img).resized.width ≤ (normalizeFile img).canvasW ∧
    (normalizeFile img).resized.height ≤ (normalizeFile img).canvasH ∧
    (∀ m, 32 ∣ m → (normalizeFile img).resized.width ≤ m →
      (normalizeFile img).canvasW ≤ m) ∧
    (∀ m, 32 ∣ m → (normalizeFile img).resized.height ≤ m →
      (normalizeFile img).canvasH ≤ m) ∧
    (32 ∣ (normalizeFile img).resized.width →
      (normalizeFile img).canvasW = (normalizeFile img).resized.width) ∧
    (32 ∣ (normalizeFile img).resized.height →
      (normalizeFile img).canvasH = (normalizeFile img).resized.height) := by
  rw [normalizeFile_canvasW, normalizeFile_canvasH, normalizeFile_resized_width,
    normalizeFile_resized_height]
  exact ⟨next_multiple_dvd _, next_multiple_dvd _, next_multiple_le _, next_multiple_le _,
    fun m hd hle => next_multiple_min _ m hd hle,
    fun m hd hle => next_multiple_min _ m hd hle,
    fun hd => next_multiple_fixed _ hd, fun hd => next_multiple_fixed _ hd⟩

/-- Claim C5, witness: the canvas facts evaluated on the 64×64 sprite
(resized 16×16, canvas 32×32). -/
theorem canvas_least_multiple_of_32_witness :
    32 ∣ (normalizeFile img64).canvasW ∧ 32 ∣ (normalizeFile img64).canvasH ∧
    (normalizeFile img64).resized.width ≤ (normalizeFile img64).canvasW ∧
    (normalizeFile img64).resized.height ≤ (normalizeFile img64).canvasH ∧
    (∀ m, 32 ∣ m → (normalizeFile img64).resized.width ≤ m →
      (normalizeFile img64).canvasW ≤ m) ∧
    (∀ m, 32 ∣ m → (normalizeFile img64).resized.height ≤ m →
      (normalizeFile img64).canvasH ≤ m) ∧
    (32 ∣ (normalizeFile img64).resized.width →
      (normalizeFile img64).canvasW = (normalizeFile img64).resized.width) ∧
    (32 ∣ (normalizeFile img64).resized.height →
      (normalizeFile img64).canvasH = (normalizeFile img64).resized.height) :=
  canvas_least_multiple_of_32 img64

/-- Claim C6: the centering offset per axis is
floor((canvas − resized)/2); the canvas dimension is at least the
resized dimension and 2·offset + resized is either the canvas dimension
or one less. -/
theorem centering_offset_spec (img : Image) :
    (normalizeFile img).offsetX =
      ((normalizeFile img).canvasW - (normalizeFile img).resized.width) / 2 ∧
    (normalizeFile img).offsetY =
      ((normalizeFile img).canvasH - (normalizeFile img).resized.height) / 2 ∧
    (normalizeFile img).resized.width ≤ (normalizeFile img).canvasW ∧
    (normalizeFile img).resized.height ≤ (normalizeFile img).canvasH ∧
    (2 * (normalizeFile img).offsetX + (normalizeFile img).resized.width =
        (normalizeFile img).canvasW ∨
      2 * (normalizeFile img).offsetX + (normalizeFile img).resized.width =
        (normalizeFile img).canvasW - 1) ∧
    (2 * (normalizeFile img).offsetY + (normalizeFile img).resized.height =
        (normalizeFile img).canvasH ∨
      2 * (normalizeFile img).offsetY + (normalizeFile img).resized.height =
        (normalizeFile img).canvasH - 1) := by
  rw [normalizeFile_offsetX, normalizeFile_offsetY, normalizeFile_canvasW,
    normalizeFile_canvasH, normalizeFile_resized_width, normalizeFile_resized_height]
  have h1 := next_multiple_le (max 1 (img.width / 4))
  have h2 := next_multiple_le (max 1 (img.height / 4))
  omega

/-- Claim C7: the Normalizer is a pure function of its input files:
running it a second time over the same input listing overwrites the
output directory with byte-identical results, and each `.png` input
contributes exactly the normalization of its own content. -/
theorem normalizer_pure_idempotent (inputs : List (String × Image))
    (st : String → Option Image) :
    runNormalizer inputs (runNormalizer inputs st) = runNormalizer inputs st ∧
    ∀ f ∈ inputs, f.1.endsWith ".png" = true →
      (f.1, (normalizeFile f.2).output) ∈ processDirectory inputs := by
  constructor
  · funext q
    show writeOutputs (writeOutputs st (processDirectory inputs)) (processDirectory inputs) q =
      writeOutputs st (processDirectory inputs) q
    rw [writeOutputs_apply, writeOutputs_apply]
    cases h : lastWrite (processDirectory inputs) q <;> simp [h]
  · intro f hf hpng
    exact List.mem_filterMap.mpr ⟨f, hf, by simp [hpng]⟩

/-- Claim C7, witness: idempotence and per-file dependence evaluated on
a one-file listing over an empty output directory. -/
theorem normalizer_pure_idempotent_witness :
    runNormalizer inputs1 (runNormalizer inputs1 emptyStore) =
      runNormalizer inputs1 emptyStore ∧
    ∀ f ∈ inputs1, f.1.endsWith ".png" = true →
      (f.1, (normalizeFile f.2).output) ∈ processDirectory inputs1 :=
  normalizer_pure_idempotent inputs1 emptyStore

/-- Claim C8: on a sheet whose raw mask is zero everywhere (zero visible
pixels), the contour finder returns no contours (by its contract that
every contour is a non-empty list of on-pixels of the binary mask), so
the run writes nothing and reports a contour count of zero. -/
theorem blank_sheet_zero_outputs (findContours : (Nat → Nat → Nat) → List Contour)
    (s : Sheet)
    (hzero : ∀ x, x < s.img.width → ∀ y, y < s.img.height → rawMask s x y = 0)
    (hsound : ∀ c ∈ findContours (binMask s), c ≠ [] ∧
      ∀ p ∈ c, p.1 < s.img.width ∧ p.2 < s.img.height ∧ binMask s p.1 p.2 = 255) :
    findContours (binMask s) = [] ∧
    (runExtractor findContours (some s)).written = [] ∧
    (runExtractor findContours (some s)).summary = some 0 := by
  have hnil : findContours (binMask s) = [] := by
    cases hfc : findContours (binMask s) with
    | nil => rfl
    | cons c cs =>
        exfalso
        obtain ⟨hne, hp⟩ := hsound c (by rw [hfc]; exact List.mem_cons_self c cs)
        cases c with
        | nil => exact hne rfl
        | cons p ps =>
            obtain ⟨hx, hy, hbm⟩ := hp p (List.mem_cons_self p ps)
            have h0 : rawMask s p.1 p.2 = 0 := hzero p.1 hx p.2 hy
            rw [binMask, h0] at hbm
            simp [threshBin] at hbm
  refine ⟨hnil, ?_, ?_⟩ <;>
    simp [runExtractor, hnil, extractSprites, extractFrom]

/-- Claim C8, witness: the fully transparent 2×2 sheet with the empty
contour result. -/
theorem blank_sheet_zero_outputs_witness :
    (∀ x, x < sheetBlank.img.width → ∀ y, y < sheetBlank.img.height →
      rawMask sheetBlank x y = 0) ∧
    (noContours (binMask sheetBlank) = [] ∧
     (runExtractor noContours (some sheetBlank)).written = [] ∧
     (runExtractor noContours (some sheetBlank)).summary = some 0) :=
  ⟨by decide,
   blank_sheet_zero_outputs noContours sheetBlank (by decide)
     (by intro c hc; simp [noContours] at hc)⟩

/-- Claim C9: when the input path is missing or not decodable
(`cv2.imread` returns None), the run aborts with an unhandled fatal
error before writing any sprite file, but only after the output
directory has been ensured to exist. -/
theorem missing_input_aborts (findContours : (Nat → Nat → Nat) → List Contour) :
    runExtractor findContours none =
      { dirEnsured := true, aborted := true, written := [], summary := none } := rfl

/-- Claim C10: every Normalizer output canvas is at least 32×32. -/
theorem canvas_at_least_32 (img : Image) :
    32 ≤ (normalizeFile img).canvasW ∧ 32 ≤ (normalizeFile img).canvasH := by
  rw [normalizeFile_canvasW, normalizeFile_canvasH]
  exact ⟨next_multiple_ge_32 _ (Nat.le_max_left _ _),
    next_multiple_ge_32 _ (Nat.le_max_left _ _)⟩

end SpritePipeline
